import Mathlib

/-!
Shallow embedding of `disctools/context.py` (TEEN-BOOM/DiscTools).

The module extends a discord.py command `Context` with target tracking and
role-hierarchy checks.  Actors (`discord.abc.User` vs `discord.Member`) are
modelled as a tagged variant: a plain user has an id only, a guild member
additionally has a top-role rank (the position of `top_role`, an orderable
value).  Discord equality between users/members is id-based, which we model
with `aeq`.  Python exceptions are modelled with `Except Err`; the `TypeError`
carries the printed type name of the offending value (the Python message
interpolates `type(x)`).
-/

namespace DiscTools

/-- An actor: either a plain `discord.abc.User` (identity only, no role data)
or a `discord.Member` (identity plus top-role rank).  Accessing `top_role`
on a plain user raises `AttributeError` in Python, modelled below by
`rank?` returning `none`. -/
inductive Actor where
  | user (id : Nat)
  | member (id : Nat) (rank : Nat)
  deriving DecidableEq, Repr

/-- The discord id of an actor. -/
def Actor.aid : Actor → Nat
  | .user i => i
  | .member i _ => i

/-- Discord `==` between users/members compares ids (`_UserTag.__eq__`). -/
def aeq (a b : Actor) : Bool := a.aid == b.aid

/-- Python `isinstance(x, discord.Member)`. -/
def Actor.isMember : Actor → Bool
  | .user _ => false
  | .member _ _ => true

/-- The `top_role` rank if the actor is a `discord.Member`; `none` models the
`AttributeError` a plain user raises on `x.top_role`. -/
def Actor.rank? : Actor → Option Nat
  | .user _ => none
  | .member _ r => some r

/-- The printed type of the actor, as interpolated into `TypeError` messages
by `f"... {type(x)}"`. -/
def Actor.typeName : Actor → String
  | .user _ => "discord.user.User"
  | .member _ _ => "discord.member.Member"

/-- A guild, exposing its owner (`self.guild.owner`). -/
structure Guild where
  owner : Actor
  deriving DecidableEq, Repr

/-- The `Targets` union type
`Union[discord.abc.User, Sequence[discord.abc.User]]`: either a lone actor or
a sequence of actors. -/
inductive Targets where
  | one (a : Actor)
  | many (l : List Actor)
  deriving DecidableEq, Repr

/-- `_maybe_sequence(doubtful)`: wrap a lone actor in a one-element list,
return a sequence unchanged. -/
def _maybe_sequence : Targets → List Actor
  | .one a => [a]
  | .many l => l

/-- Python exceptions raised by this module: `ValueError` (guild is `None`;
its message is a fixed string) and `TypeError` (carrying the printed type of
the offending value). -/
inductive Err where
  | valueError
  | typeError (tyname : String)
  deriving DecidableEq, Repr

/-- The state of a `TargetContext`: the guild of the triggering message
(`none` outside guilds), the invoking author, the bot's guild identity
(`self.me`), the mentions of the triggering message, and the stored
`_target` sequence. -/
structure Ctx where
  guild : Option Guild
  author : Actor
  me : Actor
  message_mentions : List Actor
  _target : List Actor
  deriving DecidableEq, Repr

/-- The `targets` property getter: returns `self._target`. -/
def getTargets (ctx : Ctx) : List Actor := ctx._target

/-- The `targets` property setter: `self._target = _maybe_sequence(user)`. -/
def setTargets (ctx : Ctx) (user : Targets) : Ctx :=
  { ctx with _target := _maybe_sequence user }

/-- `TargetContext.__init__`: sets `self.targets = self.message.mentions`
(through the setter; mentions are a list, hence stored verbatim). -/
def Ctx.init (guild : Option Guild) (author me : Actor)
    (mentions : List Actor) : Ctx :=
  setTargets { guild := guild, author := author, me := me,
               message_mentions := mentions, _target := [] }
    (.many mentions)

/-- `is_user_target(user)`: `user in self.targets` (id-based equality). -/
def is_user_target (ctx : Ctx) (user : Actor) : Bool :=
  (getTargets ctx).any (fun e => aeq user e)

/-- The `is_author_target` property: `self.author in self.targets`. -/
def is_author_target (ctx : Ctx) : Bool :=
  (getTargets ctx).any (fun e => aeq ctx.author e)

/-- The `for member in users` loop of `_above_check`: owner-equality first,
then the rank comparison; an `AttributeError` from a missing `top_role`
(on `member` first, then on `user`) becomes a `TypeError` whose message
interpolates `type(member)`. -/
def aboveLoop (g : Guild) (user : Actor) : List Actor → Except Err (Bool × Option Actor)
  | [] => .ok (true, none)
  | m :: rest =>
    if aeq m g.owner then .ok (false, some m)
    else
      match m.rank? with
      | none => .error (Err.typeError m.typeName)
      | some mr =>
        match user.rank? with
        | none => .error (Err.typeError m.typeName)
        | some ur =>
          if ur < mr then .ok (false, some m)
          else aboveLoop g user rest

/-- `_above_check(user, users)`: require a guild (else `ValueError`), bind the
local `targets = self.targets`, short-circuit when `user == self.guild.owner`,
default/normalize the `users` argument, then run the candidate loop. -/
def _above_check (ctx : Ctx) (user : Actor) (users : Option Targets) :
    Except Err (Bool × Option Actor) :=
  match ctx.guild with
  | none => .error Err.valueError
  | some g =>
    let targets := getTargets ctx
    if aeq user g.owner then .ok (true, none)
    else
      let us := match users with
        | none => targets
        | some t => _maybe_sequence t
      aboveLoop g user us

/-- `is_author_above(users)`: type-check `self.author` as `discord.Member`
(else `TypeError` naming its type), then delegate to `_above_check`. -/
def is_author_above (ctx : Ctx) (users : Option Targets) :
    Except Err (Bool × Option Actor) :=
  if ctx.author.isMember then _above_check ctx ctx.author users
  else .error (Err.typeError ctx.author.typeName)

/-- `is_bot_above(users)`: type-check `self.me` as `discord.Member`
(else `TypeError` naming its type), then delegate to `_above_check`. -/
def is_bot_above (ctx : Ctx) (users : Option Targets) :
    Except Err (Bool × Option Actor) :=
  if ctx.me.isMember then _above_check ctx ctx.me users
  else .error (Err.typeError ctx.me.typeName)

/-- Events of the async layer around `whisper`: calling the coroutine
function `target.send(...)` without `await` merely constructs a coroutine
object (`coroCreated`); only awaiting or scheduling it would actually perform
the direct-message send (`sendPerformed`). -/
inductive DMEvent where
  | coroCreated (target : Actor)
  | sendPerformed (target : Actor)
  deriving DecidableEq, Repr

/-- Whether the event is an actually performed (awaited/scheduled) send. -/
def DMEvent.isPerformed : DMEvent → Bool
  | .coroCreated _ => false
  | .sendPerformed _ => true

/-- `whisper(users, ...)` as its trace of async events: default `users` to
`self.targets`, normalize with `_maybe_sequence`, then for each target run
the loop body `target.send(*args, **kwargs)` — a coroutine call with no
`await`, so each iteration only creates a coroutine object.  The coroutine
returns `None`. -/
def whisper (ctx : Ctx) (users : Option Targets) : List DMEvent :=
  let us0 : Targets := match users with
    | none => .many (getTargets ctx)
    | some t => t
  let us := _maybe_sequence us0
  us.map DMEvent.coroCreated

/-- Whether a candidate `c` blocks a privileged actor of rank `ur` in guild
`g` (spec wording): `c` equals the guild owner, or `c`'s top-role rank is
strictly greater than `ur`. -/
def blocksB (g : Guild) (ur : Nat) (c : Actor) : Bool :=
  aeq c g.owner ||
    (match c.rank? with
     | none => false
     | some r => decide (ur < r))

/-! State-passing translations.  Python methods receive `self`; here the
context is threaded through every statement explicitly, so that the theorems
about state can speak about the post-state of each operation, including when
it raises.  No statement of the source assigns to any attribute of `self`. -/

/-- State-passing `for member in users` loop of `_above_check`. -/
def aboveLoop_st (ctx : Ctx) (g : Guild) (user : Actor) :
    List Actor → Except Err (Bool × Option Actor) × Ctx
  | [] => (.ok (true, none), ctx)
  | m :: rest =>
    if aeq m g.owner then (.ok (false, some m), ctx)
    else
      match m.rank? with
      | none => (.error (Err.typeError m.typeName), ctx)
      | some mr =>
        match user.rank? with
        | none => (.error (Err.typeError m.typeName), ctx)
        | some ur =>
          if ur < mr then (.ok (false, some m), ctx)
          else aboveLoop_st ctx g user rest

/-- State-passing `_above_check`. -/
def _above_check_st (ctx : Ctx) (user : Actor) (users : Option Targets) :
    Except Err (Bool × Option Actor) × Ctx :=
  match ctx.guild with
  | none => (.error Err.valueError, ctx)
  | some g =>
    let targets := getTargets ctx
    if aeq user g.owner then (.ok (true, none), ctx)
    else
      let us := match users with
        | none => targets
        | some t => _maybe_sequence t
      aboveLoop_st ctx g user us

/-- State-passing `is_author_above`. -/
def is_author_above_st (ctx : Ctx) (users : Option Targets) :
    Except Err (Bool × Option Actor) × Ctx :=
  if ctx.author.isMember then _above_check_st ctx ctx.author users
  else (.error (Err.typeError ctx.author.typeName), ctx)

/-- State-passing `is_bot_above`. -/
def is_bot_above_st (ctx : Ctx) (users : Option Targets) :
    Except Err (Bool × Option Actor) × Ctx :=
  if ctx.me.isMember then _above_check_st ctx ctx.me users
  else (.error (Err.typeError ctx.me.typeName), ctx)

/-- State-passing `is_user_target`. -/
def is_user_target_st (ctx : Ctx) (user : Actor) : Bool × Ctx :=
  ((getTargets ctx).any (fun e => aeq user e), ctx)

/-- State-passing `is_author_target`. -/
def is_author_target_st (ctx : Ctx) : Bool × Ctx :=
  ((getTargets ctx).any (fun e => aeq ctx.author e), ctx)

/-! Helper lemmas. -/

/-- The loop, restricted to well-formed candidates, computes the first
blocking candidate of `blocksB`. -/
theorem aboveLoop_eq_find (g : Guild) (user : Actor) (ur : Nat)
    (hu : user.rank? = some ur) :
    ∀ cs : List Actor, (∀ c ∈ cs, c.isMember = true) →
      aboveLoop g user cs = .ok (!cs.any (blocksB g ur), cs.find? (blocksB g ur))
  | [], _ => by simp [aboveLoop]
  | m :: rest, hm => by
    have hmem : m.isMember = true := hm m (List.mem_cons_self m rest)
    have hrest : ∀ c ∈ rest, c.isMember = true :=
      fun c hc => hm c (List.mem_cons_of_mem m hc)
    obtain ⟨mr, hmr⟩ : ∃ r, m.rank? = some r := by
      cases m with
      | user i => simp [Actor.isMember] at hmem
      | member i r => exact ⟨r, rfl⟩
    by_cases how : aeq m g.owner = true
    · simp [aboveLoop, how, List.any_cons, List.find?_cons, blocksB]
    · have how' : aeq m g.owner = false := by
        simpa using how
      by_cases hlt : ur < mr
      · simp [aboveLoop, how', hmr, hu, hlt, List.any_cons, List.find?_cons, blocksB]
      · have ih := aboveLoop_eq_find g user ur hu rest hrest
        simp [aboveLoop, how', hmr, hu, hlt, List.any_cons, List.find?_cons, blocksB, ih]

/-- Traversing a prefix of well-formed, non-blocking candidates leaves the
loop running on the remainder. -/
theorem aboveLoop_append_skip (g : Guild) (user : Actor) (ur : Nat)
    (hu : user.rank? = some ur) :
    ∀ pre : List Actor,
      (∀ c ∈ pre, c.isMember = true ∧ blocksB g ur c = false) →
      ∀ l : List Actor, aboveLoop g user (pre ++ l) = aboveLoop g user l
  | [], _ => fun l => by simp
  | m :: rest, hm => fun l => by
    have hmem := (hm m (List.mem_cons_self m rest)).1
    have hblk := (hm m (List.mem_cons_self m rest)).2
    have hrest : ∀ c ∈ rest, c.isMember = true ∧ blocksB g ur c = false :=
      fun c hc => hm c (List.mem_cons_of_mem m hc)
    obtain ⟨mr, hmr⟩ : ∃ r, m.rank? = some r := by
      cases m with
      | user i => simp [Actor.isMember] at hmem
      | member i r => exact ⟨r, rfl⟩
    have how : aeq m g.owner = false := by
      simp [blocksB, hmr] at hblk
      exact hblk.1
    have hlt : ¬ ur < mr := by
      simp [blocksB, hmr, how] at hblk
      omega
    have ih := aboveLoop_append_skip g user ur hu rest hrest l
    simp [aboveLoop, how, hmr, hu, hlt, ih]

/-- An actor with a rank is a member. -/
theorem member_of_rank {a : Actor} {r : Nat} (h : a.rank? = some r) :
    a.isMember = true := by
  cases a with
  | user i => simp [Actor.rank?] at h
  | member i s => rfl

/-- A non-member has no rank. -/
theorem rank_none_of_not_member {a : Actor} (h : a.isMember = false) :
    a.rank? = none := by
  cases a with
  | user i => rfl
  | member i s => simp [Actor.isMember] at h

/-- C1: in a guild, for a non-owner privileged member of rank `ur` and a
sequence of well-formed candidates, `_above_check` returns `.ok` of the pair
whose boolean is `true` exactly when no candidate blocks (`blocksB`: equals
the owner, or rank strictly greater than `ur`), whose actor is the first
blocking candidate in sequence order (`find?`, hence `none` exactly when the
boolean is `true`); in particular the empty sequence yields `(true, none)`. -/
theorem above_check_first_blocker (ctx : Ctx) (g : Guild) (u : Actor) (ur : Nat)
    (cs : List Actor)
    (hg : ctx.guild = some g) (hu : u.rank? = some ur)
    (hno : aeq u g.owner = false)
    (hm : ∀ c ∈ cs, c.isMember = true) :
    _above_check ctx u (some (.many cs)) =
      .ok (!cs.any (blocksB g ur), cs.find? (blocksB g ur)) ∧
    ((!cs.any (blocksB g ur)) = true ↔ ∀ c ∈ cs, blocksB g ur c = false) ∧
    (cs.find? (blocksB g ur) = none ↔ (!cs.any (blocksB g ur)) = true) ∧
    _above_check ctx u (some (.many [])) = .ok (true, none) := by
  refine ⟨?_, ?_, ?_, ?_⟩
  · simp only [_above_check, hg, hno, Bool.false_eq_true, if_false, _maybe_sequence]
    exact aboveLoop_eq_find g u ur hu cs hm
  · simp
  · simp [List.find?_eq_none, List.any_eq_true]
  · simp [_above_check, hg, hno, _maybe_sequence, aboveLoop]

/-- C1 witness: privileged member rank 5, candidates of ranks 3, 7, 4; the
first (and only) blocker is the rank-7 member. -/
theorem above_check_first_blocker_w :
    _above_check ⟨some ⟨.member 0 9⟩, .member 10 5, .member 10 5, [], []⟩
        (.member 10 5)
        (some (.many [.member 1 3, .member 2 7, .member 3 4])) =
      .ok (false, some (.member 2 7)) := by
  have h := above_check_first_blocker
      ⟨some ⟨.member 0 9⟩, .member 10 5, .member 10 5, [], []⟩
      ⟨.member 0 9⟩ (.member 10 5) 5 [.member 1 3, .member 2 7, .member 3 4]
      rfl rfl (by decide) (by decide)
  rw [h.1]
  rfl

/-- C2: if the privileged actor equals the guild owner, `_above_check`
returns `(true, none)` for every `users` argument, malformed candidates
included: the owner test precedes candidate resolution and the loop. -/
theorem above_check_owner_privileged (ctx : Ctx) (g : Guild) (u : Actor)
    (users : Option Targets)
    (hg : ctx.guild = some g) (ho : aeq u g.owner = true) :
    _above_check ctx u users = .ok (true, none) := by
  simp [_above_check, hg, ho]

/-- C2 witness: the owner as privileged actor, candidates holding a plain
user (no rank data) and a rank-99 member; still `(true, none)`. -/
theorem above_check_owner_privileged_w :
    _above_check ⟨some ⟨.member 0 9⟩, .member 0 9, .member 0 9, [], []⟩
        (.member 0 9) (some (.many [.user 5, .member 1 99])) =
      .ok (true, none) :=
  above_check_owner_privileged
    ⟨some ⟨.member 0 9⟩, .member 0 9, .member 0 9, [], []⟩
    ⟨.member 0 9⟩ (.member 0 9) (some (.many [.user 5, .member 1 99]))
    rfl (by decide)

/-- C3: for a non-owner privileged member, a candidate equal to the guild
owner blocks as soon as it is reached (all earlier candidates well formed and
non-blocking), with no constraint on the owner candidate's explicit rank:
the owner-equality test precedes the rank comparison in each iteration. -/
theorem above_check_owner_candidate (ctx : Ctx) (g : Guild) (u cand : Actor)
    (ur : Nat) (pre rest : List Actor)
    (hg : ctx.guild = some g) (hu : u.rank? = some ur)
    (hno : aeq u g.owner = false)
    (hpre : ∀ c ∈ pre, c.isMember = true ∧ blocksB g ur c = false)
    (hcand : aeq cand g.owner = true) :
    _above_check ctx u (some (.many (pre ++ cand :: rest))) =
      .ok (false, some cand) := by
  simp only [_above_check, hg, hno, Bool.false_eq_true, if_false, _maybe_sequence]
  rw [aboveLoop_append_skip g u ur hu pre hpre (cand :: rest)]
  simp [aboveLoop, hcand]

/-- C3 witness: owner of explicit rank 2, privileged member of rank 5; after
a harmless rank-3 member the owner candidate is reached and blocks although
its rank 2 does not exceed 5. -/
theorem above_check_owner_candidate_w :
    _above_check ⟨some ⟨.member 0 2⟩, .member 10 5, .member 10 5, [], []⟩
        (.member 10 5)
        (some (.many ([.member 1 3] ++ .member 0 2 :: [.user 7]))) =
      .ok (false, some (.member 0 2)) :=
  above_check_owner_candidate
    ⟨some ⟨.member 0 2⟩, .member 10 5, .member 10 5, [], []⟩
    ⟨.member 0 2⟩ (.member 10 5) (.member 0 2) 5 [.member 1 3] [.user 7]
    rfl rfl (by decide) (by decide) (by decide)

/-- C4 counterexample: a rank-less plain user carrying the guild owner's id
(id 0), reached in the candidate loop under a non-owner rank-5 privileged
author, is caught by the id-based owner-equality test and blocks with
`(false, candidate)`: no `TypeError` is raised although the candidate lacks
role-rank data, contradicting the claim as stated. -/
theorem hierarchy_type_error_cex :
    is_author_above ⟨some ⟨.member 0 9⟩, .member 10 5, .member 10 5, [], []⟩
        (some (.many [.user 0])) = .ok (false, some (.user 0)) ∧
    is_author_above ⟨some ⟨.member 0 9⟩, .member 10 5, .member 10 5, [], []⟩
        (some (.many [.user 0])) ≠
      .error (Err.typeError (Actor.user 0).typeName) := by
  refine ⟨rfl, fun h => ?_⟩
  exact Except.noConfusion h

/-- C4 (amended): an actor `A` without role-rank data (not a
`discord.Member`) makes the hierarchy checks raise `TypeError` naming `A`'s
type: unconditionally when `A` is the author (`is_author_above`) or the
bot's identity (`is_bot_above`), and when `A` is reached in the candidate
loop (after well-formed non-blocking candidates) by either method, provided
`A` does not carry the guild owner's id — an owner-id-equal rank-less
candidate is instead caught by the owner-equality test and returns
`(false, A)`. -/
theorem hierarchy_type_error (A : Actor) (ctx1 ctx2 ctx3 ctx4 : Ctx)
    (users1 users2 : Option Targets) (g : Guild) (u : Actor) (ur : Nat)
    (pre rest : List Actor)
    (hA : A.isMember = false) :
    (ctx1.author = A → is_author_above ctx1 users1 =
      .error (Err.typeError A.typeName)) ∧
    (ctx2.me = A → is_bot_above ctx2 users2 =
      .error (Err.typeError A.typeName)) ∧
    (ctx3.guild = some g → ctx3.author = u → u.rank? = some ur →
      aeq u g.owner = false →
      (∀ c ∈ pre, c.isMember = true ∧ blocksB g ur c = false) →
      aeq A g.owner = false →
      is_author_above ctx3 (some (.many (pre ++ A :: rest))) =
        .error (Err.typeError A.typeName)) ∧
    (ctx4.guild = some g → ctx4.me = u → u.rank? = some ur →
      aeq u g.owner = false →
      (∀ c ∈ pre, c.isMember = true ∧ blocksB g ur c = false) →
      aeq A g.owner = false →
      is_bot_above ctx4 (some (.many (pre ++ A :: rest))) =
        .error (Err.typeError A.typeName)) := by
  have hAr : A.rank? = none := rank_none_of_not_member hA
  refine ⟨?_, ?_, ?_, ?_⟩
  · intro h1
    simp [is_author_above, h1, hA]
  · intro h2
    simp [is_bot_above, h2, hA]
  · intro hg ha hu hno hpre hAo
    have hum : u.isMember = true := member_of_rank hu
    simp only [is_author_above, ha, hum, if_true]
    simp only [_above_check, hg, hno, Bool.false_eq_true, if_false, _maybe_sequence]
    rw [aboveLoop_append_skip g u ur hu pre hpre (A :: rest)]
    simp [aboveLoop, hAo, hAr]
  · intro hg ha hu hno hpre hAo
    have hum : u.isMember = true := member_of_rank hu
    simp only [is_bot_above, ha, hum, if_true]
    simp only [_above_check, hg, hno, Bool.false_eq_true, if_false, _maybe_sequence]
    rw [aboveLoop_append_skip g u ur hu pre hpre (A :: rest)]
    simp [aboveLoop, hAo, hAr]

/-- C4 witness: the plain user of id 7 as author, as bot identity, and as a
candidate reached after a harmless rank-3 member, under a rank-5 privileged
member and owner of id 0. -/
theorem hierarchy_type_error_w :
    is_author_above ⟨some ⟨.member 0 9⟩, .user 7, .member 1 5, [], []⟩ none =
      .error (Err.typeError "discord.user.User") ∧
    is_bot_above ⟨some ⟨.member 0 9⟩, .member 1 5, .user 7, [], []⟩ none =
      .error (Err.typeError "discord.user.User") ∧
    is_author_above ⟨some ⟨.member 0 9⟩, .member 10 5, .member 10 5, [], []⟩
        (some (.many ([.member 1 3] ++ .user 7 :: [.member 0 9]))) =
      .error (Err.typeError "discord.user.User") ∧
    is_bot_above ⟨some ⟨.member 0 9⟩, .member 10 5, .member 10 5, [], []⟩
        (some (.many ([.member 1 3] ++ .user 7 :: [.member 0 9]))) =
      .error (Err.typeError "discord.user.User") := by
  have h := hierarchy_type_error (.user 7)
      ⟨some ⟨.member 0 9⟩, .user 7, .member 1 5, [], []⟩
      ⟨some ⟨.member 0 9⟩, .member 1 5, .user 7, [], []⟩
      ⟨some ⟨.member 0 9⟩, .member 10 5, .member 10 5, [], []⟩
      ⟨some ⟨.member 0 9⟩, .member 10 5, .member 10 5, [], []⟩
      none none ⟨.member 0 9⟩ (.member 10 5) 5 [.member 1 3] [.member 0 9]
      (by decide)
  exact ⟨h.1 rfl, h.2.1 rfl,
    h.2.2.1 rfl rfl rfl (by decide) (by decide) (by decide),
    h.2.2.2 rfl rfl rfl (by decide) (by decide) (by decide)⟩

/-- C5 counterexample: candidates `[member(rank 9), user(no rank), owner]`
under a non-owner privileged member of rank 5: the sequence contains a
malformed candidate (position 1) earlier than an owner-equal candidate
(position 2), yet `_above_check` raises no `TypeError` — it returns normally,
blocked by the rank-9 member encountered first. -/
theorem above_check_validation_order_cex :
    _above_check ⟨some ⟨.member 0 2⟩, .member 10 5, .member 10 5, [], []⟩
        (.member 10 5)
        (some (.many [.member 1 9, .user 7, .member 0 2])) =
      .ok (false, some (.member 1 9)) := by
  rfl

/-- C5 amended: if every candidate before the malformed one is a well-formed
non-blocking member — so the malformed candidate is actually reached — then
a malformed non-owner candidate placed earlier than an owner-equal candidate
makes `_above_check` raise `TypeError` at the malformed candidate; the
owner-equal candidate is never reached and `(false, owner)` is never
returned. -/
theorem above_check_validation_order (ctx : Ctx) (g : Guild) (u bad ownc : Actor)
    (ur : Nat) (pre mid rest : List Actor)
    (hg : ctx.guild = some g) (hu : u.rank? = some ur)
    (hno : aeq u g.owner = false)
    (hpre : ∀ c ∈ pre, c.isMember = true ∧ blocksB g ur c = false)
    (hbad : bad.isMember = false) (hbado : aeq bad g.owner = false)
    (_hown : aeq ownc g.owner = true) :
    _above_check ctx u (some (.many (pre ++ bad :: (mid ++ ownc :: rest)))) =
      .error (Err.typeError bad.typeName) := by
  have hbr : bad.rank? = none := rank_none_of_not_member hbad
  simp only [_above_check, hg, hno, Bool.false_eq_true, if_false, _maybe_sequence]
  rw [aboveLoop_append_skip g u ur hu pre hpre (bad :: (mid ++ ownc :: rest))]
  simp [aboveLoop, hbado, hbr]

/-- C5 amended witness: candidates `[member(rank 3), user 7, owner]` under a
rank-5 privileged member: `TypeError` at the plain user, the trailing owner
candidate never reached. -/
theorem above_check_validation_order_w :
    _above_check ⟨some ⟨.member 0 2⟩, .member 10 5, .member 10 5, [], []⟩
        (.member 10 5)
        (some (.many ([.member 1 3] ++ .user 7 :: ([] ++ .member 0 2 :: [])))) =
      .error (Err.typeError "discord.user.User") :=
  above_check_validation_order
    ⟨some ⟨.member 0 2⟩, .member 10 5, .member 10 5, [], []⟩
    ⟨.member 0 2⟩ (.member 10 5) (.user 7) (.member 0 2) 5
    [.member 1 3] [] []
    rfl rfl (by decide) (by decide) (by decide) (by decide) (by decide)

/-- C6 counterexample: with `guild = None` and a plain-user author,
`is_author_above` raises `TypeError` (the `isinstance` check on the author
runs before `_above_check`), not the claimed `ValueError`. -/
theorem no_guild_cex :
    is_author_above ⟨none, .user 7, .member 1 5, [], []⟩ none =
      .error (Err.typeError "discord.user.User") ∧
    is_author_above ⟨none, .user 7, .member 1 5, [], []⟩ none ≠
      .error Err.valueError := by
  refine ⟨rfl, fun h => ?_⟩
  exact Err.noConfusion (Except.error.inj h)

/-- C6 amended: with `guild = None`, `_above_check` always raises
`ValueError` before any owner check, candidate resolution, or rank
comparison; `is_author_above` and `is_bot_above` do so whenever their
privileged actor passes the member type-check, and raise `TypeError` naming
the actor's type when it does not (the type-check precedes the guild
check). -/
theorem no_guild_value_error (ctx : Ctx) (u : Actor) (users : Option Targets)
    (hg : ctx.guild = none) :
    _above_check ctx u users = .error Err.valueError ∧
    (ctx.author.isMember = true →
      is_author_above ctx users = .error Err.valueError) ∧
    (ctx.me.isMember = true →
      is_bot_above ctx users = .error Err.valueError) ∧
    (ctx.author.isMember = false →
      is_author_above ctx users = .error (Err.typeError ctx.author.typeName)) ∧
    (ctx.me.isMember = false →
      is_bot_above ctx users = .error (Err.typeError ctx.me.typeName)) := by
  refine ⟨by simp [_above_check, hg], ?_, ?_, ?_, ?_⟩
  · intro h
    simp [is_author_above, h, _above_check, hg]
  · intro h
    simp [is_bot_above, h, _above_check, hg]
  · intro h
    simp [is_author_above, h]
  · intro h
    simp [is_bot_above, h]

/-- C6 amended witness: guild absent, author and bot identity both members:
all three operations raise `ValueError`. -/
theorem no_guild_value_error_w :
    _above_check ⟨none, .member 1 5, .member 2 6, [], []⟩ (.member 1 5) none =
      .error Err.valueError ∧
    is_author_above ⟨none, .member 1 5, .member 2 6, [], []⟩ none =
      .error Err.valueError ∧
    is_bot_above ⟨none, .member 1 5, .member 2 6, [], []⟩ none =
      .error Err.valueError := by
  have h := no_guild_value_error ⟨none, .member 1 5, .member 2 6, [], []⟩
      (.member 1 5) none rfl
  exact ⟨h.1, h.2.1 rfl, h.2.2.1 rfl⟩

/-- C7: `whisper`'s loop body is `target.send(*args, **kwargs)` with no
`await`: on a context targeting the plain user of id 3, the async trace of
`whisper(None, ...)` consists of a single created-but-never-awaited
coroutine, and no send in the whole trace is ever performed — no direct
message is dispatched, contradicting the documented fire-and-forget DM
behavior. -/
theorem whisper_never_awaits :
    whisper ⟨some ⟨.member 0 9⟩, .member 1 5, .member 2 6, [.user 3], [.user 3]⟩
        none = [DMEvent.coroCreated (.user 3)] ∧
    (whisper ⟨some ⟨.member 0 9⟩, .member 1 5, .member 2 6, [.user 3], [.user 3]⟩
        none).all (fun e => !e.isPerformed) = true := by
  exact ⟨rfl, rfl⟩

/-- C8: assigning a lone actor to `targets` stores the one-element sequence,
assigning a sequence stores it verbatim (same list, order kept), and the
assignment replaces the whole `_target` field — the result is independent of
the previously stored TargetSet and every other field is untouched. -/
theorem targets_set_get (ctx : Ctx) (a : Actor) (s : List Actor) :
    getTargets (setTargets ctx (.one a)) = [a] ∧
    getTargets (setTargets ctx (.many s)) = s ∧
    setTargets ctx (.many s) = { ctx with _target := s } ∧
    setTargets ctx (.one a) = { ctx with _target := [a] } := by
  exact ⟨rfl, rfl, rfl, rfl⟩

/-- C9: `is_author_target` coincides with `is_user_target` applied to the
author for every context, and `is_user_target` is true exactly when the
queried actor is a member of the current TargetSet under discord's id-based
equality; both are total boolean functions, raising nothing. -/
theorem author_target_iff_user_target (ctx : Ctx) (u : Actor) :
    is_author_target ctx = is_user_target ctx ctx.author ∧
    (is_user_target ctx u = true ↔ ∃ e ∈ getTargets ctx, aeq u e = true) := by
  refine ⟨rfl, ?_⟩
  simp [is_user_target, List.any_eq_true]

/-- The state-passing loop leaves the context unchanged. -/
theorem aboveLoop_st_snd (ctx : Ctx) (g : Guild) (user : Actor) :
    ∀ cs : List Actor, (aboveLoop_st ctx g user cs).2 = ctx
  | [] => rfl
  | m :: rest => by
    by_cases how : aeq m g.owner = true
    · simp [aboveLoop_st, how]
    · cases hmr : m.rank? with
      | none => simp [aboveLoop_st, how, hmr]
      | some mr =>
        cases hur : user.rank? with
        | none => simp [aboveLoop_st, how, hmr, hur]
        | some ur =>
          by_cases hlt : ur < mr
          · simp [aboveLoop_st, how, hmr, hur, hlt]
          · simp [aboveLoop_st, how, hmr, hur, hlt,
              aboveLoop_st_snd ctx g user rest]

/-- The state-passing translations compute the same results as the direct
ones (sanity link between the two embeddings). -/
theorem st_fst_eq (ctx : Ctx) (u : Actor) (users : Option Targets) :
    (_above_check_st ctx u users).1 = _above_check ctx u users ∧
    (is_author_above_st ctx users).1 = is_author_above ctx users ∧
    (is_bot_above_st ctx users).1 = is_bot_above ctx users ∧
    (is_user_target_st ctx u).1 = is_user_target ctx u ∧
    (is_author_target_st ctx).1 = is_author_target ctx := by
  have hloop : ∀ (v : Actor) (cs : List Actor),
      (aboveLoop_st ctx ⟨(ctx.guild.getD ⟨.user 0⟩).owner⟩ v cs).1 =
        aboveLoop ⟨(ctx.guild.getD ⟨.user 0⟩).owner⟩ v cs := by
    intro v cs
    induction cs with
    | nil => rfl
    | cons m rest ih =>
      by_cases how : aeq m ((ctx.guild.getD ⟨.user 0⟩).owner) = true
      · simp [aboveLoop_st, aboveLoop, how]
      · cases hmr : m.rank? with
        | none => simp [aboveLoop_st, aboveLoop, how, hmr]
        | some mr =>
          cases hur : v.rank? with
          | none => simp [aboveLoop_st, aboveLoop, how, hmr, hur]
          | some ur =>
            by_cases hlt : ur < mr
            · simp [aboveLoop_st, aboveLoop, how, hmr, hur, hlt]
            · simp [aboveLoop_st, aboveLoop, how, hmr, hur, hlt, ih]
  have habove : ∀ v : Actor,
      (_above_check_st ctx v users).1 = _above_check ctx v users := by
    intro v
    cases hg : ctx.guild with
    | none => simp [_above_check_st, _above_check, hg]
    | some g =>
      have hg' : g = ⟨(ctx.guild.getD ⟨.user 0⟩).owner⟩ := by
        cases g
        simp [hg]
      by_cases ho : aeq v g.owner = true
      · simp [_above_check_st, _above_check, hg, ho]
      · cases users with
        | none =>
          simp only [_above_check_st, _above_check, hg, ho, Bool.false_eq_true,
            if_false]
          rw [hg']
          exact hloop v (getTargets ctx)
        | some t =>
          simp only [_above_check_st, _above_check, hg, ho, Bool.false_eq_true,
            if_false]
          rw [hg']
          exact hloop v (_maybe_sequence t)
  refine ⟨habove u, ?_, ?_, rfl, rfl⟩
  · by_cases h : ctx.author.isMember = true
    · simp [is_author_above_st, is_author_above, h, habove ctx.author]
    · simp only [Bool.not_eq_true] at h
      simp [is_author_above_st, is_author_above, h]
  · by_cases h : ctx.me.isMember = true
    · simp [is_bot_above_st, is_bot_above, h, habove ctx.me]
    · simp only [Bool.not_eq_true] at h
      simp [is_bot_above_st, is_bot_above, h]

/-- C10: the read-only operations — `is_author_target`, `is_user_target`,
`_above_check`, `is_author_above`, `is_bot_above` — leave the whole context
state, in particular the stored TargetSet, unchanged, both on normal results
and on the `TypeError`/`ValueError` paths; no statement of theirs assigns to
the context. -/
theorem readonly_frame (ctx : Ctx) (u : Actor) (users : Option Targets) :
    (is_author_target_st ctx).2 = ctx ∧
    (is_user_target_st ctx u).2 = ctx ∧
    (_above_check_st ctx u users).2 = ctx ∧
    (is_author_above_st ctx users).2 = ctx ∧
    (is_bot_above_st ctx users).2 = ctx := by
  have habove : ∀ v : Actor, (_above_check_st ctx v users).2 = ctx := by
    intro v
    cases hg : ctx.guild with
    | none => simp [_above_check_st, hg]
    | some g =>
      by_cases ho : aeq v g.owner = true
      · simp [_above_check_st, hg, ho]
      · cases users with
        | none => simp [_above_check_st, hg, ho, aboveLoop_st_snd]
        | some t => simp [_above_check_st, hg, ho, aboveLoop_st_snd]
  refine ⟨rfl, rfl, habove u, ?_, ?_⟩
  · by_cases h : ctx.author.isMember = true
    · simp [is_author_above_st, h, habove ctx.author]
    · simp only [Bool.not_eq_true] at h
      simp [is_author_above_st, h]
  · by_cases h : ctx.me.isMember = true
    · simp [is_bot_above_st, h, habove ctx.me]
    · simp only [Bool.not_eq_true] at h
      simp [is_bot_above_st, h]

end DiscTools

